import Mathlib

/-!
Verification of the stratified-sampling pipeline in `src/sampling.py`
(seoul-apt-price-prediction).

The pipeline is embedded shallowly:
* a DataFrame row is a `Row`; a DataFrame is a `List Row`;
* `prepare_sampling_columns` / `build_stratified_sample` /
  `make_sample_parquet` are Lean functions mirroring the pandas code
  line by line;
* pandas `DataFrame.sample(n=k, random_state=seed)` (a uniformly random
  draw of `k` rows without replacement, deterministic in the seed) is
  modelled by `sampleRows`, a deterministic draw of `k` rows without
  replacement driven by an explicit linear-congruential generator; the
  exact pseudo-random stream of NumPy's Mersenne twister is abstracted,
  while determinism, the draw size and the without-replacement
  discipline are preserved exactly;
* the float arithmetic in `(weights * n).round()` is modelled by exact
  rational arithmetic with round-half-to-even (NumPy `rint` semantics);
* the year chain `pd.to_numeric(..., errors="coerce").astype("Int64")`
  is modelled cell by cell on exact values: unparseable prefixes coerce
  to null, integral numeric prefixes (also float literals like
  `"12.0"` or `"1e3"`) give an integer year, and non-integral or
  out-of-int64-range prefixes make the call raise (`TypeError` from
  `astype("Int64")`), modelled as `none` from
  `prepare_sampling_columns`;
* column-level (schema) behaviour is modelled separately by
  `build_stratified_sample_schema` acting on lists of column names.
-/

/-- One row of the input DataFrame, with the seven columns the sampler
selects (`required` in `build_stratified_sample`).  `sigungu` and
`contract_yyyymm` are the strings stratification reads; numeric payload
columns are carried as integers (their values never influence the
sampling logic). -/
structure Row where
  sigungu : String
  apartment_name : String
  area_m2 : Int
  built_year : Int
  contract_yyyymm : String
  floor : Int
  price_10k_krw : Int
deriving DecidableEq, Repr

/-- A row after `prepare_sampling_columns`: the original columns plus the
derived `district`, `year` and `strata` columns. -/
structure SRow where
  base : Row
  district : String
  year : Option Int
  strata : String
deriving DecidableEq, Repr

/-- A row of the final sample: `build_stratified_sample` drops only the
`strata` column, so `district` and `year` remain. -/
structure ORow where
  base : Row
  district : String
  year : Option Int
deriving DecidableEq, Repr

/-- Dropping the `strata` column (`sample.drop(columns=["strata"])`). -/
def SRow.dropStrata (x : SRow) : ORow := ⟨x.base, x.district, x.year⟩

/-- Helper for Python `str.split()` (split on whitespace runs, no empty
tokens): accumulates the current token in reverse. -/
def splitWsAux : List Char → List Char → List String
  | [], acc => if acc.isEmpty then [] else [String.mk acc.reverse]
  | c :: cs, acc =>
    if c.isWhitespace then
      if acc.isEmpty then splitWsAux cs []
      else String.mk acc.reverse :: splitWsAux cs []
    else splitWsAux cs (c :: acc)

/-- Python `str.split()` with no argument: whitespace-delimited tokens,
empty tokens discarded. -/
def pySplit (s : String) : List String := splitWsAux s.data []

/-- `out["sigungu"].astype(str).str.split().str[1].fillna("Unknown")`:
the second whitespace token of the location string, or the sentinel
`"Unknown"` when there are fewer than two tokens. -/
def districtOf (sg : String) : String :=
  match pySplit sg with
  | _ :: d :: _ => d
  | _ => "Unknown"

/-- Outcome of `pd.to_numeric(cell, errors="coerce")` followed by
`astype("Int64")` on one cell: the cell coerces to missing (`na`),
yields an integer year (`intVal`), or makes the whole `astype("Int64")`
call raise `TypeError` (`castFail`) — the latter happens when the cell
parses as a finite non-integral number (e.g. `"12.5"`, `".5"`), as an
infinity, or as an integral value outside the int64 range. -/
inductive ToNumericResult where
  | na : ToNumericResult
  | intVal : Int → ToNumericResult
  | castFail : ToNumericResult
deriving DecidableEq, Repr

/-- Decimal digit run folded to a natural number. -/
def digitsToNat (cs : List Char) : Nat :=
  cs.foldl (fun a c => a * 10 + (c.toNat - 48)) 0

/-- Leading digit run of a character list, with the remainder. -/
def spanDigits (cs : List Char) : List Char × List Char :=
  (cs.takeWhile Char.isDigit, cs.dropWhile Char.isDigit)

/-- Exponent suffix of a numeric literal (everything after `e`/`E`):
an optional sign and at least one digit, nothing else. -/
def parseExp (cs : List Char) : Option Int :=
  match cs with
  | '+' :: rest =>
    if rest.isEmpty ∨ ¬ rest.all Char.isDigit then none
    else some ((digitsToNat rest : Nat) : Int)
  | '-' :: rest =>
    if rest.isEmpty ∨ ¬ rest.all Char.isDigit then none
    else some (-((digitsToNat rest : Nat) : Int))
  | rest =>
    if rest.isEmpty ∨ ¬ rest.all Char.isDigit then none
    else some ((digitsToNat rest : Nat) : Int)

/-- Unsigned numeric literal `digits [. digits] [(e|E) exp]` (at least
one mantissa digit), returned as mantissa digits value, number of
fraction digits, and exponent — so the exact value is
`M * 10 ^ (e - f)`. -/
def parseMantissaExp (cs : List Char) : Option (Nat × Nat × Int) :=
  let (ip, rest1) := spanDigits cs
  match rest1 with
  | '.' :: rest2 =>
    let (fp, rest3) := spanDigits rest2
    if ip.isEmpty ∧ fp.isEmpty then none
    else
      match rest3 with
      | [] => some (digitsToNat (ip ++ fp), fp.length, 0)
      | 'e' :: restE =>
        (parseExp restE).map (fun e => (digitsToNat (ip ++ fp), fp.length, e))
      | 'E' :: restE =>
        (parseExp restE).map (fun e => (digitsToNat (ip ++ fp), fp.length, e))
      | _ => none
  | [] => if ip.isEmpty then none else some (digitsToNat ip, 0, 0)
  | 'e' :: restE =>
    if ip.isEmpty then none
    else (parseExp restE).map (fun e => (digitsToNat ip, 0, e))
  | 'E' :: restE =>
    if ip.isEmpty then none
    else (parseExp restE).map (fun e => (digitsToNat ip, 0, e))
  | _ => none

/-- The int64 casting step of `astype("Int64")` on an exact integral
value: in-range values convert, out-of-range values raise. -/
def castInt64 (v : Int) : ToNumericResult :=
  if v < -(2 ^ 63) ∨ 2 ^ 63 ≤ v then ToNumericResult.castFail
  else ToNumericResult.intVal v

/-- One cell of `pd.to_numeric(col, errors="coerce").astype("Int64")`:
surrounding whitespace is ignored and an optional sign allowed;
`inf`/`nan` literals are recognized; a string that is no numeric
literal coerces to missing; a numeric literal yields its integer value
when integral and in int64 range, and otherwise makes the cast raise.
(On the four-character strings reaching it every in-range integral
value is exactly representable in float64, so exact rational
arithmetic agrees with the float chain.) -/
def toNumericInt64 (s : String) : ToNumericResult :=
  let t := ((s.data.dropWhile Char.isWhitespace).reverse.dropWhile
      Char.isWhitespace).reverse
  let body := match t with
    | '-' :: rest => rest
    | '+' :: rest => rest
    | rest => rest
  let neg : Bool := match t with
    | '-' :: _ => true
    | _ => false
  if body.map Char.toLower = ['i', 'n', 'f'] then ToNumericResult.castFail
  else if body.map Char.toLower = ['n', 'a', 'n'] then ToNumericResult.na
  else
    match parseMantissaExp body with
    | none => ToNumericResult.na
    | some (M, f, e) =>
      let sc : Int := e - (f : Int)
      if 0 ≤ sc then
        let v : Int := (M : Int) * 10 ^ sc.toNat
        castInt64 (if neg then -v else v)
      else
        let d : Nat := 10 ^ (-sc).toNat
        if M % d = 0 then
          castInt64 (if neg then -((M / d : Nat) : Int) else ((M / d : Nat) : Int))
        else ToNumericResult.castFail

/-- `pd.to_numeric(out["contract_yyyymm"].astype(str).str[:4],
errors="coerce").astype("Int64")` on one cell: the four-character
prefix of the period string through the numeric chain. -/
def parseYear (s : String) : ToNumericResult :=
  toNumericInt64 (String.mk (s.data.take 4))

/-- `astype(str)` on the nullable-integer `year` column: a value prints
as its decimal representation, a missing value prints as `"<NA>"`. -/
def yearStr : Option Int → String
  | some v => toString v
  | none => "<NA>"

/-- `prepare_sampling_columns` on one row: attach `district`, `year` and
the composite `strata = district + "_" + str(year)` key; `none` when
the year chain raises (`astype("Int64")` `TypeError`). -/
def prepareRow (r : Row) : Option SRow :=
  let d := districtOf r.sigungu
  match parseYear r.contract_yyyymm with
  | ToNumericResult.castFail => none
  | ToNumericResult.na => some ⟨r, d, none, d ++ "_" ++ yearStr none⟩
  | ToNumericResult.intVal v =>
    some ⟨r, d, some v, d ++ "_" ++ yearStr (some v)⟩

/-- `prepare_sampling_columns(df)`: add the helper columns to every
row.  The `astype("Int64")` step acts on the whole column, so one
raising cell makes the entire call raise (`none`); otherwise every row
is kept, in order. -/
def prepare_sampling_columns : List Row → Option (List SRow)
  | [] => some []
  | r :: rs =>
    match prepareRow r, prepare_sampling_columns rs with
    | some x, some xs => some (x :: xs)
    | _, _ => none

/-- `len(base[base["strata"] == s])`: the population count of stratum
`s` (one entry of `value_counts`). -/
def countOf (rows : List SRow) (s : String) : Nat :=
  (rows.filter (fun x => x.strata == s)).length

/-- The index of `base["strata"].value_counts(dropna=False)`: the
distinct stratum keys, ordered by descending count (ties resolved
deterministically by first appearance). -/
def stratumKeys (rows : List SRow) : List String :=
  ((rows.map (·.strata)).dedup).insertionSort
    (fun a b => countOf rows b ≤ countOf rows a)

/-- `(weights * n).round().astype(int)` for one stratum, on exact
rationals: round-to-nearest with ties to even (NumPy `rint`) of
`n * count / total`. -/
def planOf (n count total : Nat) : Nat :=
  let num := n * count
  let q := num / total
  let r := num % total
  if 2 * r < total then q
  else if total < 2 * r then q + 1
  else if q % 2 = 0 then q else q + 1

/-- The linear-congruential step driving the draw model. -/
def lcg (s : Nat) : Nat := (s * 1103515245 + 12345) % 2 ^ 31

/-- Draw up to `k` rows without replacement: repeatedly remove the row
at a pseudo-random index.  Models the selection discipline of pandas
`DataFrame.sample` (deterministic in the seed, never repeats a row,
returns `min k` of the available rows). -/
def drawAux {α : Type} : Nat → Nat → List α → List α
  | 0, _, _ => []
  | _ + 1, _, [] => []
  | k + 1, s, x :: xs =>
    let i := s % (x :: xs).length
    (x :: xs).get ⟨i, Nat.mod_lt _ (Nat.succ_pos _)⟩ ::
      drawAux k (lcg s) ((x :: xs).eraseIdx i)

/-- `frame.sample(n=k, random_state=seed)`: a deterministic draw of `k`
rows without replacement. -/
def sampleRows {α : Type} (rows : List α) (k seed : Nat) : List α :=
  drawAux k seed rows

/-- One iteration of the allocation loop of `build_stratified_sample`:
skip the stratum when its rounded plan is `0` (`if k <= 0: continue`)
or when it has no rows (`if len(chunk) == 0: continue`), otherwise draw
`min(k, len(chunk))` rows from its chunk with the fixed seed. -/
def partFor (rows : List SRow) (n seed : Nat) (s : String) :
    Option (List SRow) :=
  let k := planOf n (countOf rows s) rows.length
  if k = 0 then none
  else
    let chunk := rows.filter (fun x => x.strata == s)
    if chunk.length = 0 then none
    else some (sampleRows chunk (min k chunk.length) seed)

/-- The `parts` list built by the allocation loop of
`build_stratified_sample`, iterating the strata in `value_counts`
order. -/
def parts (rows : List SRow) (n seed : Nat) : List (List SRow) :=
  (stratumKeys rows).filterMap (partFor rows n seed)

/-- `build_stratified_sample(df, n, seed)`.  Returns `none` exactly when
the Python code raises: either `prepare_sampling_columns` raises (its
`astype("Int64")` on a non-integral numeric period prefix) and the
exception propagates, or `pd.concat(parts)` fails because `parts` is
empty (no stratum received a positive plan — in particular on empty
input).  Otherwise the per-stratum draws are concatenated, trimmed to
`n` rows by a further seeded draw when they exceed `n`, and the
`strata` column is dropped. -/
def build_stratified_sample (df : List Row) (n seed : Nat) :
    Option (List ORow) :=
  match prepare_sampling_columns df with
  | none => none
  | some rows =>
    let ps := parts rows n seed
    if ps.isEmpty then none
    else
      let cand := ps.flatten
      let sample := if n < cand.length then sampleRows cand n seed else cand
      some (sample.map SRow.dropStrata)

/-- `make_sample_parquet`: read, rename (a row-level identity), sample,
write.  The written artifact is the returned sample; when
`build_stratified_sample` raises (`none`) the exception propagates and
nothing is written. -/
def make_sample_parquet (df : List Row) (n seed : Nat) :
    Option (List ORow) :=
  build_stratified_sample df n seed

/-- The `required` column list of `build_stratified_sample`. -/
def requiredCols : List String :=
  ["sigungu", "apartment_name", "area_m2", "built_year",
   "contract_yyyymm", "floor", "price_10k_krw"]

/-- `df[[c for c in required if c in df.columns]]`: the selected base
schema, in `required` order. -/
def baseCols (cols : List String) : List String :=
  requiredCols.filter (fun c => c ∈ cols)

/-- Column-level behaviour of `build_stratified_sample`: select the base
columns, let `prepare_sampling_columns` append `district`, `year` and
`strata`, and finally `drop(columns=["strata"])`. -/
def build_stratified_sample_schema (cols : List String) : List String :=
  ((baseCols cols) ++ ["district", "year", "strata"]).erase "strata"

/-- Modelled from the spec: the Allocation Planner's rounding rule,
`plan_s = round(n * count_s / total_count)` on exact rationals with a
round-half-to-even tie rule, stated independently of the code's
natural-number arithmetic. -/
def roundHalfEvenQ (q : ℚ) : ℤ :=
  let f := ⌊q⌋
  if q - f < 1 / 2 then f
  else if (1 : ℚ) / 2 < q - f then f + 1
  else if f % 2 = 0 then f else f + 1

open List

/-- Splitting off the element at index `i`: a list is a permutation of
that element consed onto the list with index `i` erased. -/
theorem perm_get_cons_eraseIdx {α : Type} (rows : List α) {i : Nat}
    (hi : i < rows.length) :
    rows ~ rows.get ⟨i, hi⟩ :: rows.eraseIdx i := by
  have h1 : rows.take i ++ rows[i] :: rows.drop (i + 1) = rows := by
    rw [List.getElem_cons_drop rows i hi, List.take_append_drop]
  rw [List.eraseIdx_eq_take_drop_succ, List.get_eq_getElem]
  conv_lhs => rw [← h1]
  exact List.perm_middle

/-- The draw returns `min k rows.length` rows. -/
theorem drawAux_length {α : Type} :
    ∀ (k s : Nat) (rows : List α),
      (drawAux k s rows).length = min k rows.length
  | 0, _, _ => by simp [drawAux]
  | _ + 1, _, [] => by simp [drawAux]
  | k + 1, s, x :: xs => by
    simp only [drawAux, List.length_cons]
    rw [drawAux_length k (lcg s), List.length_eraseIdx]
    simp only [List.length_cons]
    have hm : s % (xs.length + 1) < xs.length + 1 :=
      Nat.mod_lt _ (Nat.succ_pos _)
    rw [if_pos hm]
    omega

/-- The draw is a sub-permutation of the available rows: it takes each
row at most as often as it occurs (without replacement). -/
theorem drawAux_subperm {α : Type} :
    ∀ (k s : Nat) (rows : List α), drawAux k s rows <+~ rows
  | 0, _, rows => List.nil_subperm
  | _ + 1, _, [] => List.nil_subperm
  | k + 1, s, x :: xs => by
    have hi : s % (x :: xs).length < (x :: xs).length :=
      Nat.mod_lt _ (Nat.succ_pos _)
    have hrec := drawAux_subperm k (lcg s)
      ((x :: xs).eraseIdx (s % (x :: xs).length))
    obtain ⟨w, hw, hsub⟩ := hrec
    refine List.Subperm.trans
      ⟨(x :: xs).get ⟨s % (x :: xs).length, hi⟩ :: w,
        hw.cons _, hsub.cons₂ _⟩
      (perm_get_cons_eraseIdx (x :: xs) hi).symm.subperm
    
/-- With enough fuel the draw exhausts the rows: it is a permutation of
the whole list. -/
theorem drawAux_perm_of_le {α : Type} :
    ∀ (k s : Nat) (rows : List α), rows.length ≤ k →
      drawAux k s rows ~ rows
  | 0, _, [], _ => by simp [drawAux]
  | _ + 1, _, [], _ => by simp [drawAux]
  | 0, _, x :: xs, h => by simp at h
  | k + 1, s, x :: xs, h => by
    have hi : s % (x :: xs).length < (x :: xs).length :=
      Nat.mod_lt _ (Nat.succ_pos _)
    have hlen : ((x :: xs).eraseIdx (s % (x :: xs).length)).length
        = xs.length := by
      rw [List.length_eraseIdx_of_lt hi]; simp
    have hrec := drawAux_perm_of_le k (lcg s)
      ((x :: xs).eraseIdx (s % (x :: xs).length))
      (by rw [hlen]; simpa using Nat.le_of_succ_le_succ h)
    calc drawAux (k + 1) s (x :: xs)
        = (x :: xs).get ⟨s % (x :: xs).length, hi⟩ ::
            drawAux k (lcg s)
              ((x :: xs).eraseIdx (s % (x :: xs).length)) := rfl
      _ ~ (x :: xs).get ⟨s % (x :: xs).length, hi⟩ ::
            (x :: xs).eraseIdx (s % (x :: xs).length) := hrec.cons _
      _ ~ x :: xs := (perm_get_cons_eraseIdx (x :: xs) hi).symm

/-- Appending respects sub-permutations. -/
theorem subperm_append_both {α : Type} {l₁ l₂ r₁ r₂ : List α}
    (h₁ : l₁ <+~ l₂) (h₂ : r₁ <+~ r₂) : l₁ ++ r₁ <+~ l₂ ++ r₂ := by
  obtain ⟨w₁, p₁, s₁⟩ := h₁
  obtain ⟨w₂, p₂, s₂⟩ := h₂
  exact ⟨w₁ ++ w₂, p₁.append p₂, s₁.append s₂⟩

/-- Filtering for stratum `s` is unaffected by first removing the rows
of a different stratum `k`. -/
theorem filter_not_filter_eq (rows : List SRow) {s k : String}
    (hsk : s ≠ k) :
    (rows.filter (fun x => !(x.strata == k))).filter
        (fun x => x.strata == s)
      = rows.filter (fun x => x.strata == s) := by
  induction rows with
  | nil => simp
  | cons y ys ih =>
    by_cases hk : y.strata = k
    · have hs : ¬(y.strata = s) := by
        rw [hk]; exact fun h => hsk h.symm
      simp [List.filter_cons, hk, hs, ih, Ne.symm hsk]
    · by_cases hs : y.strata = s <;>
        simp [List.filter_cons, hk, hs, ih, hsk]

/-- The concatenation of per-stratum draws is a sub-permutation of the
population whenever each draw is a sub-permutation of its stratum and
the keys are pairwise distinct. -/
theorem flatten_filterMap_subperm :
    ∀ (keys : List String) (f : String → Option (List SRow))
      (rows : List SRow), keys.Nodup →
      (∀ s ∈ keys, ∀ l, f s = some l →
        l <+~ rows.filter (fun x => x.strata == s)) →
      (keys.filterMap f).flatten <+~ rows := by
  intro keys
  induction keys with
  | nil => intro f rows _ _; simp
  | cons k ks ih =>
    intro f rows hnd hf
    have hknotin : k ∉ ks := (List.nodup_cons.mp hnd).1
    have hnd' : ks.Nodup := (List.nodup_cons.mp hnd).2
    have hrest : (ks.filterMap f).flatten <+~
        rows.filter (fun x => !(x.strata == k)) := by
      apply ih f _ hnd'
      intro s hs l hl
      have hne : s ≠ k := fun h => hknotin (h ▸ hs)
      rw [filter_not_filter_eq rows hne]
      exact hf s (List.mem_cons_of_mem _ hs) l hl
    have hperm : rows.filter (fun x => x.strata == k) ++
        rows.filter (fun x => !(x.strata == k)) ~ rows :=
      List.filter_append_perm _ rows
    cases hfk : f k with
    | none =>
      rw [List.filterMap_cons_none hfk]
      exact hrest.trans ((List.filter_sublist _).subperm)
    | some l₀ =>
      have h₀ : l₀ <+~ rows.filter (fun x => x.strata == k) :=
        hf k (List.mem_cons_self k ks) l₀ hfk
      rw [List.filterMap_cons_some hfk, List.flatten_cons]
      exact (subperm_append_both h₀ hrest).trans hperm.subperm

/-- When every per-stratum draw is a permutation of its whole stratum
and the distinct keys cover every row, the concatenation is a
permutation of the population. -/
theorem flatten_filterMap_perm :
    ∀ (keys : List String) (f : String → Option (List SRow))
      (rows : List SRow), keys.Nodup →
      (∀ x ∈ rows, x.strata ∈ keys) →
      (∀ s ∈ keys, ∃ l, f s = some l ∧
        l ~ rows.filter (fun x => x.strata == s)) →
      (keys.filterMap f).flatten ~ rows := by
  intro keys
  induction keys with
  | nil =>
    intro f rows _ hcov _
    have : rows = [] := by
      cases rows with
      | nil => rfl
      | cons y ys => exact absurd (hcov y (List.mem_cons_self y ys)) (by simp)
    simp [this]
  | cons k ks ih =>
    intro f rows hnd hcov hf
    have hknotin : k ∉ ks := (List.nodup_cons.mp hnd).1
    have hnd' : ks.Nodup := (List.nodup_cons.mp hnd).2
    obtain ⟨l₀, hfk, hp₀⟩ := hf k (List.mem_cons_self k ks)
    have hrest : (ks.filterMap f).flatten ~
        rows.filter (fun x => !(x.strata == k)) := by
      apply ih f _ hnd'
      · intro x hx
        have hxk : ¬(x.strata == k) := by
          have := List.of_mem_filter hx
          simpa using this
        have hx' : x ∈ rows := List.mem_of_mem_filter hx
        have := hcov x hx'
        simp only [List.mem_cons] at this
        rcases this with h | h
        · exact absurd (by simp [h]) hxk
        · exact h
      · intro s hs
        have hne : s ≠ k := fun h => hknotin (h ▸ hs)
        obtain ⟨l, hl, hpl⟩ := hf s (List.mem_cons_of_mem _ hs)
        exact ⟨l, hl, by rw [filter_not_filter_eq rows hne]; exact hpl⟩
    have hperm : rows.filter (fun x => x.strata == k) ++
        rows.filter (fun x => !(x.strata == k)) ~ rows :=
      List.filter_append_perm _ rows
    rw [List.filterMap_cons_some hfk, List.flatten_cons]
    exact (hp₀.append hrest).trans hperm

/-- Rows of strata absent from the key list contribute nothing. -/
theorem flatten_filterMap_filter_of_not_mem :
    ∀ (keys : List String) (f : String → Option (List SRow))
      (s : String),
      (∀ t ∈ keys, ∀ l, f t = some l → ∀ x ∈ l, x.strata = t) →
      s ∉ keys →
      ((keys.filterMap f).flatten).filter (fun x => x.strata == s)
        = [] := by
  intro keys
  induction keys with
  | nil => intro f s _ _; simp
  | cons k ks ih =>
    intro f s hmem hs
    have hks : s ∉ ks := fun h => hs (List.mem_cons_of_mem _ h)
    have hne : k ≠ s := fun h => hs (h ▸ List.mem_cons_self k ks)
    have hih := ih f s
      (fun t ht => hmem t (List.mem_cons_of_mem _ ht)) hks
    cases hfk : f k with
    | none => rw [List.filterMap_cons_none hfk]; exact hih
    | some l₀ =>
      rw [List.filterMap_cons_some hfk, List.flatten_cons,
        List.filter_append]
      have h₀ : l₀.filter (fun x => x.strata == s) = [] := by
        rw [List.filter_eq_nil_iff]
        intro a ha
        have := hmem k (List.mem_cons_self k ks) l₀ hfk a ha
        simp [this, hne]
      rw [h₀, hih]
      rfl

/-- A stratum the loop skips contributes no rows at all. -/
theorem flatten_filterMap_filter_of_none :
    ∀ (keys : List String) (f : String → Option (List SRow))
      (s : String),
      (∀ t ∈ keys, ∀ l, f t = some l → ∀ x ∈ l, x.strata = t) →
      f s = none →
      ((keys.filterMap f).flatten).filter (fun x => x.strata == s)
        = [] := by
  intro keys
  induction keys with
  | nil => intro f s _ _; simp
  | cons k ks ih =>
    intro f s hmem hnone
    have hih := ih f s
      (fun t ht => hmem t (List.mem_cons_of_mem _ ht)) hnone
    cases hfk : f k with
    | none => rw [List.filterMap_cons_none hfk]; exact hih
    | some l₀ =>
      have hne : k ≠ s := by
        intro h
        rw [h, hnone] at hfk
        exact Option.noConfusion hfk
      rw [List.filterMap_cons_some hfk, List.flatten_cons,
        List.filter_append]
      have h₀ : l₀.filter (fun x => x.strata == s) = [] := by
        rw [List.filter_eq_nil_iff]
        intro a ha
        have := hmem k (List.mem_cons_self k ks) l₀ hfk a ha
        simp [this, hne]
      rw [h₀, hih]
      rfl

/-- The rows of stratum `s` in the concatenation are exactly the draw
produced for `s`, when the keys are distinct. -/
theorem flatten_filterMap_filter_of_some :
    ∀ (keys : List String) (f : String → Option (List SRow))
      (s : String) (ls : List SRow),
      keys.Nodup → s ∈ keys → f s = some ls →
      (∀ t ∈ keys, ∀ l, f t = some l → ∀ x ∈ l, x.strata = t) →
      ((keys.filterMap f).flatten).filter (fun x => x.strata == s)
        = ls := by
  intro keys
  induction keys with
  | nil => intro f s ls _ h; exact absurd h (List.not_mem_nil s)
  | cons k ks ih =>
    intro f s ls hnd hmem hfs hall
    have hknotin : k ∉ ks := (List.nodup_cons.mp hnd).1
    have hnd' : ks.Nodup := (List.nodup_cons.mp hnd).2
    rcases List.mem_cons.mp hmem with h | h
    · subst h
      rw [List.filterMap_cons_some hfs, List.flatten_cons,
        List.filter_append]
      have h₀ : ls.filter (fun x => x.strata == s) = ls := by
        rw [List.filter_eq_self]
        intro a ha
        simp [hall s (List.mem_cons_self s ks) ls hfs a ha]
      rw [h₀, flatten_filterMap_filter_of_not_mem ks f s
        (fun t ht => hall t (List.mem_cons_of_mem _ ht)) hknotin]
      simp
    · have hne : k ≠ s := fun hks => hknotin (hks ▸ h)
      have hih := ih f s ls hnd' h hfs
        (fun t ht => hall t (List.mem_cons_of_mem _ ht))
      cases hfk : f k with
      | none => rw [List.filterMap_cons_none hfk]; exact hih
      | some l₀ =>
        rw [List.filterMap_cons_some hfk, List.flatten_cons,
          List.filter_append]
        have h₀ : l₀.filter (fun x => x.strata == s) = [] := by
          rw [List.filter_eq_nil_iff]
          intro a ha
          have := hall k (List.mem_cons_self k ks) l₀ hfk a ha
          simp [this, hne]
        rw [h₀, hih]
        rfl

/-- The stratum keys are pairwise distinct. -/
theorem stratumKeys_nodup (rows : List SRow) :
    (stratumKeys rows).Nodup :=
  ((List.perm_insertionSort _ _).nodup_iff).mpr
    (List.nodup_dedup _)

/-- Every row's stratum occurs among the stratum keys. -/
theorem strata_mem_stratumKeys {rows : List SRow} {x : SRow}
    (hx : x ∈ rows) : x.strata ∈ stratumKeys rows :=
  ((List.perm_insertionSort _ _).mem_iff).mpr
    ((List.mem_dedup).mpr (List.mem_map_of_mem _ hx))

/-- Conversely every stratum key is the stratum of some row, so its
population count is positive. -/
theorem countOf_pos_of_mem_keys {rows : List SRow} {s : String}
    (hs : s ∈ stratumKeys rows) : 0 < countOf rows s := by
  have hmem : s ∈ (rows.map (·.strata)).dedup :=
    ((List.perm_insertionSort _ _).mem_iff).mp hs
  obtain ⟨x, hx, hxs⟩ := List.mem_map.mp (List.mem_dedup.mp hmem)
  have : x ∈ rows.filter (fun x => x.strata == s) :=
    List.mem_filter.mpr ⟨hx, by simp [hxs]⟩
  have := List.length_pos_of_mem this
  simpa [countOf] using this

/-- A skipped plan produces no part. -/
theorem partFor_of_plan_eq_zero {rows : List SRow} {n seed : Nat}
    {s : String} (h : planOf n (countOf rows s) rows.length = 0) :
    partFor rows n seed s = none := by
  simp [partFor, h]

/-- A positive plan on a populated stratum draws
`min k len(chunk)` rows from its chunk. -/
theorem partFor_of_plan_ne_zero {rows : List SRow} {n : Nat}
    (seed : Nat) {s : String}
    (hk : planOf n (countOf rows s) rows.length ≠ 0)
    (hc : countOf rows s ≠ 0) :
    partFor rows n seed s =
      some (sampleRows (rows.filter (fun x => x.strata == s))
        (min (planOf n (countOf rows s) rows.length)
          (rows.filter (fun x => x.strata == s)).length) seed) := by
  have hc' : (rows.filter (fun x => x.strata == s)).length ≠ 0 := hc
  simp [partFor, hk, hc']

/-- Whatever part the loop emits for `s` consists of rows of stratum
`s`. -/
theorem partFor_mem_strata {rows : List SRow} {n seed : Nat}
    {s : String} {l : List SRow} (h : partFor rows n seed s = some l) :
    ∀ x ∈ l, x.strata = s := by
  intro x hx
  simp only [partFor] at h
  split at h
  · exact Option.noConfusion h
  · split at h
    · exact Option.noConfusion h
    · have hl : l = sampleRows (rows.filter (fun x => x.strata == s))
          (min (planOf n (countOf rows s) rows.length)
            (rows.filter (fun x => x.strata == s)).length) seed :=
        (Option.some_injective _ h).symm
      rw [hl] at hx
      have hsub := (drawAux_subperm _ _ _).subset hx
      have := (List.mem_filter.mp hsub).2
      simpa using this

/-- Whatever part the loop emits is a sub-permutation of its chunk. -/
theorem partFor_subperm {rows : List SRow} {n seed : Nat}
    {s : String} {l : List SRow} (h : partFor rows n seed s = some l) :
    l <+~ rows.filter (fun x => x.strata == s) := by
  simp only [partFor] at h
  split at h
  · exact Option.noConfusion h
  · split at h
    · exact Option.noConfusion h
    · have hl : l = sampleRows (rows.filter (fun x => x.strata == s))
          (min (planOf n (countOf rows s) rows.length)
            (rows.filter (fun x => x.strata == s)).length) seed :=
        (Option.some_injective _ h).symm
      rw [hl]
      exact drawAux_subperm _ _ _

/-- Whatever part the loop emits has exactly
`min plan (countOf rows s)` rows. -/
theorem partFor_length {rows : List SRow} {n seed : Nat}
    {s : String} {l : List SRow} (h : partFor rows n seed s = some l) :
    l.length = min (planOf n (countOf rows s) rows.length)
      (countOf rows s) := by
  simp only [partFor] at h
  split at h
  · exact Option.noConfusion h
  · split at h
    · exact Option.noConfusion h
    · have hl : l = sampleRows (rows.filter (fun x => x.strata == s))
          (min (planOf n (countOf rows s) rows.length)
            (rows.filter (fun x => x.strata == s)).length) seed :=
        (Option.some_injective _ h).symm
      rw [hl, sampleRows, drawAux_length]
      simp [countOf, Nat.min_assoc]

/-- The concatenation of all parts is a sub-permutation of the
population rows. -/
theorem parts_flatten_subperm (rows : List SRow) (n seed : Nat) :
    (parts rows n seed).flatten <+~ rows := by
  rw [parts]
  exact flatten_filterMap_subperm _ _ rows (stratumKeys_nodup rows)
    (fun s _ l hl => partFor_subperm hl)


/-- A successful `prepareRow` keeps the original row as `base`. -/
theorem prepareRow_base {r : Row} {x : SRow}
    (h : prepareRow r = some x) : x.base = r := by
  simp only [prepareRow] at h
  split at h
  · exact Option.noConfusion h
  · exact (congrArg SRow.base (Option.some_injective _ h)).symm
  · exact (congrArg SRow.base (Option.some_injective _ h)).symm

/-- A successful `prepareRow` carries the composite strata key and the
extracted district. -/
theorem prepareRow_strata {r : Row} {x : SRow}
    (h : prepareRow r = some x) :
    x.strata = x.district ++ "_" ++ yearStr x.year ∧
    x.district = districtOf r.sigungu := by
  simp only [prepareRow] at h
  split at h
  · exact Option.noConfusion h
  · rw [← Option.some_injective _ h]
    exact ⟨rfl, rfl⟩
  · rw [← Option.some_injective _ h]
    exact ⟨rfl, rfl⟩

/-- When the year chain coerces the prefix to missing, the retained row
has a null year. -/
theorem prepareRow_year_na {r : Row} {x : SRow}
    (hna : parseYear r.contract_yyyymm = ToNumericResult.na)
    (h : prepareRow r = some x) : x.year = none := by
  simp only [prepareRow, hna] at h
  rw [← Option.some_injective _ h]

/-- `prepareRow` fails exactly when the year chain raises. -/
theorem prepareRow_eq_none_iff {r : Row} :
    prepareRow r = none ↔
      parseYear r.contract_yyyymm = ToNumericResult.castFail := by
  simp only [prepareRow]
  cases parseYear r.contract_yyyymm <;> simp

/-- A successful prepare returns the input rows, in order, as the
`base` column. -/
theorem prepare_sampling_columns_map_base :
    ∀ (df : List Row) (rows : List SRow),
      prepare_sampling_columns df = some rows →
      rows.map SRow.base = df := by
  intro df
  induction df with
  | nil =>
    intro rows h
    simp only [prepare_sampling_columns] at h
    rw [← Option.some_injective _ h]
    rfl
  | cons r rs ih =>
    intro rows h
    simp only [prepare_sampling_columns] at h
    split at h
    · rename_i x xs hx hxs
      rw [← Option.some_injective _ h, List.map_cons, prepareRow_base hx,
        ih xs hxs]
    · exact Option.noConfusion h

/-- A successful prepare keeps exactly one output row per input row. -/
theorem prepare_sampling_columns_length {df : List Row}
    {rows : List SRow} (h : prepare_sampling_columns df = some rows) :
    rows.length = df.length := by
  have := congrArg List.length (prepare_sampling_columns_map_base df rows h)
  simpa using this

/-- Every row of a successful prepare regenerates from its own `base`
column. -/
theorem prepare_sampling_columns_mem :
    ∀ (df : List Row) (rows : List SRow),
      prepare_sampling_columns df = some rows →
      ∀ x ∈ rows, prepareRow x.base = some x := by
  intro df
  induction df with
  | nil =>
    intro rows h x hx
    simp only [prepare_sampling_columns] at h
    rw [← Option.some_injective _ h] at hx
    exact absurd hx (List.not_mem_nil x)
  | cons r rs ih =>
    intro rows h x hx
    simp only [prepare_sampling_columns] at h
    split at h
    · rename_i y ys hy hys
      rw [← Option.some_injective _ h] at hx
      rcases List.mem_cons.mp hx with hxy | hxtl
      · rw [hxy, prepareRow_base hy]
        exact hy
      · exact ih ys hys x hxtl
    · exact Option.noConfusion h

/-- A duplicate-free input prepares to duplicate-free rows. -/
theorem prepare_sampling_columns_nodup {df : List Row}
    {rows : List SRow} (hdf : df.Nodup)
    (h : prepare_sampling_columns df = some rows) : rows.Nodup := by
  rw [← prepare_sampling_columns_map_base df rows h] at hdf
  exact List.Nodup.of_map _ hdf

/-- `build_stratified_sample` after a successful prepare, written as
one equation for the claim proofs. -/
theorem build_stratified_sample_of_prepare {df : List Row}
    {n seed : Nat} {rows : List SRow}
    (hp : prepare_sampling_columns df = some rows) :
    build_stratified_sample df n seed =
      (if (parts rows n seed).isEmpty then none
      else
        some ((if n < (parts rows n seed).flatten.length
          then sampleRows ((parts rows n seed).flatten) n seed
          else (parts rows n seed).flatten).map SRow.dropStrata)) := by
  simp only [build_stratified_sample, hp]

/-- `build_stratified_sample` propagates a raising prepare. -/
theorem build_stratified_sample_of_prepare_none {df : List Row}
    {n seed : Nat} (hp : prepare_sampling_columns df = none) :
    build_stratified_sample df n seed = none := by
  simp only [build_stratified_sample, hp]

/-- Elimination for a successful run: prepare succeeded, some stratum
got a positive plan, and the output is the (possibly trimmed)
concatenation with the strata column dropped. -/
theorem build_stratified_sample_some_elim {df : List Row}
    {n seed : Nat} {out : List ORow}
    (h : build_stratified_sample df n seed = some out) :
    ∃ rows, prepare_sampling_columns df = some rows ∧
      ¬ (parts rows n seed).isEmpty = true ∧
      out = (if n < (parts rows n seed).flatten.length
        then sampleRows ((parts rows n seed).flatten) n seed
        else (parts rows n seed).flatten).map SRow.dropStrata := by
  cases hp : prepare_sampling_columns df with
  | none =>
    rw [build_stratified_sample_of_prepare_none hp] at h
    exact Option.noConfusion h
  | some rows =>
    rw [build_stratified_sample_of_prepare hp] at h
    split at h
    · exact Option.noConfusion h
    · exact ⟨rows, rfl, by assumption, (Option.some_injective _ h).symm⟩

/-- C1: for every input DataFrame and target size `n`, a returned
sample has between `0` and `n` rows inclusive; when the concatenated
per-stratum draws exceed `n` rows the result is trimmed to exactly `n`,
and when they fall short the shortfall is kept (no padding). -/
theorem build_stratified_sample_size_bounds (df : List Row)
    (n seed : Nat) (out : List ORow)
    (h : build_stratified_sample df n seed = some out) :
    out.length ≤ n ∧
    ∀ rows, prepare_sampling_columns df = some rows →
      ((n < (parts rows n seed).flatten.length → out.length = n) ∧
       ((parts rows n seed).flatten.length ≤ n →
         out.length = (parts rows n seed).flatten.length)) := by
  obtain ⟨rows₀, hp₀, hne₀, hout⟩ := build_stratified_sample_some_elim h
  have key : ∀ rows, prepare_sampling_columns df = some rows →
      rows = rows₀ := fun rows hp =>
    Option.some_injective _ (hp.symm.trans hp₀)
  by_cases hlen : n < (parts rows₀ n seed).flatten.length
  · rw [if_pos hlen] at hout
    have hn : out.length = n := by
      rw [hout, List.length_map, sampleRows, drawAux_length]
      omega
    refine ⟨le_of_eq hn, ?_⟩
    intro rows hp
    rw [key rows hp]
    exact ⟨fun _ => hn, fun hle => by omega⟩
  · rw [if_neg hlen] at hout
    have hn : out.length = (parts rows₀ n seed).flatten.length := by
      rw [hout, List.length_map]
    refine ⟨by omega, ?_⟩
    intro rows hp
    rw [key rows hp]
    exact ⟨fun hlt => absurd hlt hlen, fun _ => hn⟩

/-- Witness for C1 at a concrete one-row input with `n = 5`. -/
theorem build_stratified_sample_size_bounds_witness :
    ([(⟨⟨"Seoul Gangnam Dong", "", 0, 0, "202312", 0, 0⟩, "Gangnam",
      some 2023⟩ : ORow)]).length ≤ 5 :=
  (build_stratified_sample_size_bounds
    [⟨"Seoul Gangnam Dong", "", 0, 0, "202312", 0, 0⟩] 5 42
    [⟨⟨"Seoul Gangnam Dong", "", 0, 0, "202312", 0, 0⟩, "Gangnam",
      some 2023⟩]
    (by decide)).1

/-- C2: `build_stratified_sample` is deterministic — it is a pure
function of the input DataFrame, the target size and the seed (the
fixed seed drives every per-stratum draw and the final trim, and the
strata are iterated in the deterministic `value_counts` order), so two
runs on the same input with the same seed return identical samples. -/
theorem build_stratified_sample_deterministic (df₁ df₂ : List Row)
    (n seed : Nat) (h : df₁ = df₂) :
    build_stratified_sample df₁ n seed
      = build_stratified_sample df₂ n seed := by
  rw [h]

/-- Witness for C2: two identical runs at a concrete input agree. -/
theorem build_stratified_sample_deterministic_witness :
    build_stratified_sample
        [⟨"Seoul Gangnam Dong", "", 0, 0, "202312", 0, 0⟩] 5 42
      = build_stratified_sample
        [⟨"Seoul Gangnam Dong", "", 0, 0, "202312", 0, 0⟩] 5 42 :=
  build_stratified_sample_deterministic
    [⟨"Seoul Gangnam Dong", "", 0, 0, "202312", 0, 0⟩]
    [⟨"Seoul Gangnam Dong", "", 0, 0, "202312", 0, 0⟩] 5 42 rfl

/-- C8: on an empty population the pipeline fails fatally —
`build_stratified_sample` returns no sample (the `pd.concat` of an
empty parts list raises) and `make_sample_parquet` writes nothing. -/
theorem build_stratified_sample_empty_input (n seed : Nat) :
    build_stratified_sample [] n seed = none ∧
    make_sample_parquet [] n seed = none :=
  ⟨rfl, rfl⟩

/-- C10: a non-empty input on which `build_stratified_sample` raises:
three strata of one row each with target size `1` give every stratum
the plan `round(1/3) = 0`, so no part is collected and the
concatenation step fails even though the population is non-empty. -/
theorem build_stratified_sample_nonempty_raise :
    ([⟨"a b", "", 0, 0, "2023", 0, 0⟩, ⟨"a c", "", 0, 0, "2023", 0, 1⟩,
      ⟨"a d", "", 0, 0, "2023", 0, 2⟩] : List Row) ≠ [] ∧
    planOf 1 1 3 = 0 ∧
    build_stratified_sample
      [⟨"a b", "", 0, 0, "2023", 0, 0⟩, ⟨"a c", "", 0, 0, "2023", 0, 1⟩,
       ⟨"a d", "", 0, 0, "2023", 0, 2⟩] 1 42 = none := by
  refine ⟨by decide, by decide, by decide⟩

/-- C6 counterexample: `prepare_sampling_columns` is not total — a
period string whose four-character prefix parses as the non-integral
number `12.5` makes `astype("Int64")` raise, so the call returns no
rows at all instead of retaining the row with a null year; and a prefix
parsing as the integral float `12.0` yields the year `12`, not null,
although it does not parse as an integer literal. -/
theorem prepare_sampling_columns_counterexample :
    prepare_sampling_columns
      [⟨"Seoul Gangnam", "", 0, 0, "12.5", 0, 0⟩] = none ∧
    parseYear "12.0" = ToNumericResult.intVal 12 := by
  refine ⟨by decide, by decide⟩

/-- C6 amended: on inputs whose period prefixes never make the
`astype("Int64")` cast raise (in particular on all non-numeric or
integer-valued prefixes), `prepare_sampling_columns` succeeds with
exactly one output row per input row; a location string with fewer than
two whitespace tokens gets the sentinel district `"Unknown"`; a prefix
the chain coerces to missing gives a null year with the row retained;
and every retained row carries exactly the one composite
district-plus-year stratum key. -/
theorem prepare_sampling_columns_fallbacks (df : List Row) (r : Row)
    (hok : ∀ x ∈ df,
      parseYear x.contract_yyyymm ≠ ToNumericResult.castFail) :
    (∃ rows, prepare_sampling_columns df = some rows ∧
      rows.length = df.length) ∧
    ((pySplit r.sigungu).length < 2 → districtOf r.sigungu = "Unknown") ∧
    (∀ x, prepareRow r = some x →
      (parseYear r.contract_yyyymm = ToNumericResult.na →
        x.year = none) ∧
      x.strata = x.district ++ "_" ++ yearStr x.year) := by
  refine ⟨?_, ?_, ?_⟩
  · revert hok
    induction df with
    | nil => intro _; exact ⟨[], rfl, rfl⟩
    | cons a as ih =>
      intro hok'
      obtain ⟨xs, hxs, hlen⟩ :=
        ih (fun x hx => hok' x (List.mem_cons_of_mem _ hx))
      have ha := hok' a (List.mem_cons_self a as)
      obtain ⟨x, hx⟩ : ∃ x, prepareRow a = some x := by
        cases hpr : prepareRow a with
        | some x => exact ⟨x, rfl⟩
        | none => exact absurd (prepareRow_eq_none_iff.mp hpr) ha
      refine ⟨x :: xs, ?_, by simp [hlen]⟩
      simp [prepare_sampling_columns, hx, hxs]
  · intro h
    rw [districtOf]
    cases hsp : pySplit r.sigungu with
    | nil => rfl
    | cons a tl =>
      cases tl with
      | nil => rfl
      | cons b tl2 => rw [hsp] at h; simp at h; omega
  · intro x hx
    exact ⟨fun hna => prepareRow_year_na hna hx, (prepareRow_strata hx).1⟩

/-- Witness for the amended C6 at a one-token location and a
non-numeric period prefix. -/
theorem prepare_sampling_columns_fallbacks_witness :
    districtOf "Seoul" = "Unknown" :=
  ((prepare_sampling_columns_fallbacks
    [⟨"Seoul", "", 0, 0, "abcd12", 0, 0⟩]
    ⟨"Seoul", "", 0, 0, "abcd12", 0, 0⟩ (by decide)).2.1) (by decide)

/-- C9 counterexample: the claim that the final schema is exactly the
collaborator-selected subset of Record fields (all stratum-key derived
columns excluded) fails: on a full-schema input the sample keeps the
derived `district` and `year` columns. -/
theorem build_stratified_sample_schema_counterexample :
    ¬ (build_stratified_sample_schema requiredCols
        = baseCols requiredCols) := by
  decide

/-- C9 amended: the sample never contains the composite `strata` column
— only that one stratum-key column is dropped — and its schema is the
collaborator-selected subset of Record fields followed by the derived
`district` and `year` columns. -/
theorem build_stratified_sample_schema_amended (cols : List String) :
    "strata" ∉ build_stratified_sample_schema cols ∧
    build_stratified_sample_schema cols
      = baseCols cols ++ ["district", "year"] := by
  have hb : "strata" ∉ baseCols cols := by
    intro h
    have := (List.mem_filter.mp h).1
    revert this
    decide
  have heq : build_stratified_sample_schema cols
      = baseCols cols ++ ["district", "year"] := by
    rw [build_stratified_sample_schema,
      List.erase_append_right _ hb]
    rfl
  refine ⟨?_, heq⟩
  rw [heq]
  intro h
  rcases List.mem_append.mp h with h | h
  · exact hb h
  · revert h; decide
/-- The natural-number allocation `planOf` computes exactly the
round-half-to-even of the exact rational `n * c / t`. -/
theorem planOf_eq_roundHalfEvenQ (n c t : Nat) (ht : 0 < t) :
    (planOf n c t : ℤ) = roundHalfEvenQ ((n * c : ℚ) / (t : ℚ)) := by
  have htQ : (0 : ℚ) < (t : ℚ) := by exact_mod_cast ht
  have htQ' : (t : ℚ) ≠ 0 := ne_of_gt htQ
  have hQ : ((n * c : Nat) : ℚ) = (n * c : ℚ) := by push_cast; ring
  have hdm : t * (n * c / t) + n * c % t = n * c := Nat.div_add_mod _ _
  have key : ((n * c : Nat) : ℚ)
      = (t : ℚ) * ((n * c / t : Nat) : ℚ) + ((n * c % t : Nat) : ℚ) := by
    exact_mod_cast hdm.symm
  have hx : ((n * c : Nat) : ℚ) / (t : ℚ)
      = ((n * c / t : Nat) : ℚ) + ((n * c % t : Nat) : ℚ) / (t : ℚ) := by
    rw [key, add_div, mul_comm (t : ℚ), mul_div_assoc, div_self htQ',
      mul_one]
  have hfr0 : (0 : ℚ) ≤ ((n * c % t : Nat) : ℚ) / (t : ℚ) := by
    positivity
  have hfr1 : ((n * c % t : Nat) : ℚ) / (t : ℚ) < 1 := by
    rw [div_lt_one htQ]
    exact_mod_cast Nat.mod_lt _ ht
  have hfloor : ⌊((n * c : Nat) : ℚ) / (t : ℚ)⌋
      = ((n * c / t : Nat) : ℤ) := by
    rw [hx, add_comm, Int.floor_add_nat,
      Int.floor_eq_zero_iff.mpr ⟨hfr0, hfr1⟩, zero_add]
  have hsub : ((n * c : Nat) : ℚ) / (t : ℚ)
        - (((n * c / t : Nat) : ℤ) : ℚ)
      = ((n * c % t : Nat) : ℚ) / (t : ℚ) := by
    rw [hx, Int.cast_natCast]; ring
  have hlt_iff : (((n * c % t : Nat) : ℚ) / (t : ℚ) < 1 / 2)
      ↔ 2 * (n * c % t) < t := by
    rw [div_lt_div_iff₀ htQ (by norm_num : (0 : ℚ) < 2)]
    norm_cast
    omega
  have hgt_iff : ((1 : ℚ) / 2 < ((n * c % t : Nat) : ℚ) / (t : ℚ))
      ↔ t < 2 * (n * c % t) := by
    rw [div_lt_div_iff₀ (by norm_num : (0 : ℚ) < 2) htQ]
    norm_cast
    omega
  have hpar : ((((n * c / t : Nat) : ℤ)) % 2 = 0)
      ↔ ((n * c / t) % 2 = 0) := by
    omega
  rw [← hQ]
  simp only [planOf, roundHalfEvenQ, hfloor, hsub]
  rcases Nat.lt_trichotomy (2 * (n * c % t)) t with h | h | h
  · rw [if_pos h, if_pos (hlt_iff.mpr h)]
  · have h1 : ¬ 2 * (n * c % t) < t := by omega
    have h2 : ¬ t < 2 * (n * c % t) := by omega
    rw [if_neg h1, if_neg h2,
      if_neg (fun hc => h1 (hlt_iff.mp hc)),
      if_neg (fun hc => h2 (hgt_iff.mp hc))]
    by_cases hq : (n * c / t) % 2 = 0
    · rw [if_pos hq, if_pos (hpar.mpr hq)]
    · rw [if_neg hq, if_neg (fun hc => hq (hpar.mp hc))]
      push_cast
      ring
  · have h1 : ¬ 2 * (n * c % t) < t := by omega
    rw [if_neg h1, if_pos h, if_neg (fun hc => h1 (hlt_iff.mp hc)),
      if_pos (hgt_iff.mpr h)]
    push_cast
    ring

/-- C3: the allocation planner assigns each stratum
`plan = round(n * count / total)` under the consistent
round-half-to-even rule (shown by agreement with the spec-level
rational rounding), and a stratum whose plan rounds to `0` is omitted
from the draw entirely — it contributes no rows to the concatenation,
with no minimum-per-stratum floor applied. -/
theorem allocation_plan_formula_and_zero_skip (df : List Row)
    (n seed : Nat) (s : String) (m c t : Nat) (ht : 0 < t) :
    (planOf m c t : ℤ) = roundHalfEvenQ ((m * c : ℚ) / (t : ℚ)) ∧
    ∀ rows, prepare_sampling_columns df = some rows →
      planOf n (countOf rows s) rows.length = 0 →
      ((parts rows n seed).flatten.filter
        (fun x => x.strata == s)) = [] := by
  refine ⟨planOf_eq_roundHalfEvenQ m c t ht, ?_⟩
  intro rows _ h0
  rw [parts]
  exact flatten_filterMap_filter_of_none _ _ s
    (fun t' _ l hl => partFor_mem_strata hl)
    (partFor_of_plan_eq_zero h0)

/-- Witness for C3: three singleton strata with `n = 1`; the stratum
`"b_2023"` has plan `round(1/3) = 0` and contributes nothing. -/
theorem allocation_plan_formula_and_zero_skip_witness :
    (planOf 1 1 3 : ℤ) = roundHalfEvenQ ((1 * 1 : ℚ) / (3 : ℚ)) ∧
    ((parts [⟨⟨"a b", "", 0, 0, "2023", 0, 0⟩, "b", some 2023, "b_2023"⟩,
             ⟨⟨"a c", "", 0, 0, "2023", 0, 1⟩, "c", some 2023, "c_2023"⟩,
             ⟨⟨"a d", "", 0, 0, "2023", 0, 2⟩, "d", some 2023, "d_2023"⟩]
        1 42).flatten.filter (fun x => x.strata == "b_2023")) = [] := by
  have h := allocation_plan_formula_and_zero_skip
    [⟨"a b", "", 0, 0, "2023", 0, 0⟩, ⟨"a c", "", 0, 0, "2023", 0, 1⟩,
     ⟨"a d", "", 0, 0, "2023", 0, 2⟩] 1 42 "b_2023" 1 1 3 (by decide)
  exact ⟨h.1, h.2
    [⟨⟨"a b", "", 0, 0, "2023", 0, 0⟩, "b", some 2023, "b_2023"⟩,
     ⟨⟨"a c", "", 0, 0, "2023", 0, 1⟩, "c", some 2023, "c_2023"⟩,
     ⟨⟨"a d", "", 0, 0, "2023", 0, 2⟩, "d", some 2023, "d_2023"⟩]
    (by decide) (by decide)⟩

/-- C4: a stratum with a positive plan contributes exactly
`min(plan, avail)` rows, drawn without replacement from its own chunk
(a sub-permutation of the available rows — never more rows than the
stratum contains, never the same row twice). -/
theorem stratum_draw_min_avail (df : List Row) (n seed : Nat)
    (s : String) (rows : List SRow)
    (_hrows : prepare_sampling_columns df = some rows)
    (hs : s ∈ stratumKeys rows)
    (hk : planOf n (countOf rows s) rows.length ≠ 0) :
    ((parts rows n seed).flatten.filter
        (fun x => x.strata == s)).length
      = min (planOf n (countOf rows s) rows.length) (countOf rows s) ∧
    ((parts rows n seed).flatten.filter (fun x => x.strata == s))
      <+~ rows.filter (fun x => x.strata == s) := by
  have hc : countOf rows s ≠ 0 := (countOf_pos_of_mem_keys hs).ne'
  have hpf := partFor_of_plan_ne_zero seed hk hc
  have heq := flatten_filterMap_filter_of_some
    (stratumKeys rows) (partFor rows n seed) s _
    (stratumKeys_nodup rows) hs hpf
    (fun t _ l hl => partFor_mem_strata hl)
  rw [parts, heq]
  exact ⟨partFor_length hpf, partFor_subperm hpf⟩

/-- Witness for C4: a stratum with one row and plan `3` (two singleton
strata, `n = 6`) contributes exactly `min(3, 1) = 1` row. -/
theorem stratum_draw_min_avail_witness :
    ((parts [⟨⟨"a b", "", 0, 0, "2023", 0, 0⟩, "b", some 2023, "b_2023"⟩,
             ⟨⟨"a c", "", 0, 0, "2023", 0, 1⟩, "c", some 2023, "c_2023"⟩]
        6 42).flatten.filter (fun x => x.strata == "b_2023")).length
      = 1 :=
  (stratum_draw_min_avail
    [⟨"a b", "", 0, 0, "2023", 0, 0⟩, ⟨"a c", "", 0, 0, "2023", 0, 1⟩]
    6 42 "b_2023"
    [⟨⟨"a b", "", 0, 0, "2023", 0, 0⟩, "b", some 2023, "b_2023"⟩,
     ⟨⟨"a c", "", 0, 0, "2023", 0, 1⟩, "c", some 2023, "c_2023"⟩]
    (by decide) (by decide) (by decide)).1.trans (by decide)

/-- A sub-permutation of a duplicate-free list is duplicate-free. -/
theorem nodup_of_subperm {α : Type} {l₁ l₂ : List α} (h : l₁ <+~ l₂)
    (hnd : l₂.Nodup) : l₁.Nodup := by
  obtain ⟨w, hwp, hws⟩ := h
  exact hwp.nodup_iff.mp (hnd.sublist hws)

/-- C5: no input row appears more than once in the final sample — for a
duplicate-free input DataFrame, every returned sample is
duplicate-free (strata partition the rows, each per-stratum draw and
the final trim are without replacement). -/
theorem build_stratified_sample_no_duplicates (df : List Row)
    (n seed : Nat) (out : List ORow) (hdf : df.Nodup)
    (h : build_stratified_sample df n seed = some out) :
    out.Nodup := by
  obtain ⟨rows, hp, hne, hout⟩ := build_stratified_sample_some_elim h
  have hrowsnd : rows.Nodup := prepare_sampling_columns_nodup hdf hp
  have hcand : (parts rows n seed).flatten <+~ rows :=
    parts_flatten_subperm rows n seed
  have htr : (if n < (parts rows n seed).flatten.length
      then sampleRows ((parts rows n seed).flatten) n seed
      else (parts rows n seed).flatten) <+~ rows := by
    split
    · exact (drawAux_subperm _ _ _).trans hcand
    · exact hcand
  have htrnd := nodup_of_subperm htr hrowsnd
  rw [hout]
  apply List.Nodup.map_on ?_ htrnd
  intro x hx y hy hxy
  have hxgen := prepare_sampling_columns_mem df rows hp x (htr.subset hx)
  have hygen := prepare_sampling_columns_mem df rows hp y (htr.subset hy)
  have hbase : x.base = y.base := congrArg ORow.base hxy
  have hsome : some x = some y := by
    rw [← hxgen, ← hygen, hbase]
  exact Option.some_injective _ hsome

/-- Witness for C5 at a concrete two-row duplicate-free input. -/
theorem build_stratified_sample_no_duplicates_witness :
    ([(⟨⟨"a b", "", 0, 0, "2023", 0, 0⟩, "b", some 2023⟩ : ORow),
      ⟨⟨"a b", "", 0, 0, "2023", 0, 1⟩, "b", some 2023⟩]).Nodup :=
  build_stratified_sample_no_duplicates
    [⟨"a b", "", 0, 0, "2023", 0, 0⟩, ⟨"a b", "", 0, 0, "2023", 0, 1⟩]
    2 42
    [⟨⟨"a b", "", 0, 0, "2023", 0, 0⟩, "b", some 2023⟩,
     ⟨⟨"a b", "", 0, 0, "2023", 0, 1⟩, "b", some 2023⟩]
    (by decide) (by decide)

/-- C7 counterexample: a non-empty input smaller than the target on
which no sample is returned at all — the period prefix `".5"` parses as
the non-integral number `0.5`, so `prepare_sampling_columns` raises
before any stratum is drawn, and the run yields nothing instead of the
entire population. -/
theorem build_stratified_sample_small_total_counterexample :
    (([⟨"a b", "", 0, 0, ".5", 0, 0⟩] : List Row) ≠ [] ∧
      ([⟨"a b", "", 0, 0, ".5", 0, 0⟩] : List Row).length < 5) ∧
    build_stratified_sample [⟨"a b", "", 0, 0, ".5", 0, 0⟩] 5 42
      = none := by
  refine ⟨⟨by decide, by decide⟩, by decide⟩

/-- When the target exceeds the total population, every stratum's plan
is at least its own population count. -/
theorem count_le_planOf {n c t : Nat} (ht : 0 < t) (htn : t < n) :
    c ≤ planOf n c t := by
  have hq : c ≤ n * c / t := by
    rw [Nat.le_div_iff_mul_le ht]
    calc c * t = t * c := Nat.mul_comm c t
      _ ≤ n * c := Nat.mul_le_mul_right c (Nat.le_of_lt htn)
  simp only [planOf]
  split
  · exact hq
  · split
    · omega
    · split <;> omega

/-- C7 amended: for a non-empty input whose total row count is below
the requested target, provided the stratum-column preparation succeeds
(no period prefix makes the year cast raise), every stratum's draw is
capped at its own population and the returned sample is exactly the
entire population — a permutation of all prepared rows, of size equal
to the input row count. -/
theorem build_stratified_sample_small_total (df : List Row)
    (n seed : Nat) (rows : List SRow)
    (hprep : prepare_sampling_columns df = some rows)
    (hne : df ≠ []) (hlt : df.length < n) :
    ∃ out, build_stratified_sample df n seed = some out ∧
      out ~ rows.map SRow.dropStrata ∧
      out.length = df.length := by
  have hrlen : rows.length = df.length :=
    prepare_sampling_columns_length hprep
  have ht : 0 < rows.length := by
    rw [hrlen]
    exact List.length_pos.mpr hne
  have htn : rows.length < n := by rw [hrlen]; exact hlt
  have hparts : ∀ s ∈ stratumKeys rows,
      ∃ l, partFor rows n seed s = some l ∧
        l ~ rows.filter (fun x => x.strata == s) := by
    intro s hs
    have hc := countOf_pos_of_mem_keys hs
    have hp : countOf rows s
        ≤ planOf n (countOf rows s) rows.length :=
      count_le_planOf ht htn
    have hk : planOf n (countOf rows s) rows.length ≠ 0 := by omega
    refine ⟨_, partFor_of_plan_ne_zero seed hk hc.ne', ?_⟩
    have hcnt : (rows.filter (fun x => x.strata == s)).length
        = countOf rows s := rfl
    exact drawAux_perm_of_le _ _ _ (by omega)
  have hcandperm : (parts rows n seed).flatten ~ rows :=
    flatten_filterMap_perm _ _ _ (stratumKeys_nodup _)
      (fun x hx => strata_mem_stratumKeys hx) hparts
  have hcl : (parts rows n seed).flatten.length = df.length := by
    rw [hcandperm.length_eq, hrlen]
  have hpartsne : ¬ (parts rows n seed).isEmpty = true := by
    intro hE
    have hflat : (parts rows n seed).flatten = [] := by
      rw [List.isEmpty_iff.mp hE]
      rfl
    rw [hflat] at hcandperm
    have hnil : rows = [] := List.nil_perm.mp hcandperm
    rw [hnil] at ht
    simp at ht
  refine ⟨((parts rows n seed).flatten).map SRow.dropStrata, ?_, ?_, ?_⟩
  · rw [build_stratified_sample_of_prepare hprep, if_neg hpartsne,
      if_neg (by omega : ¬ n < (parts rows n seed).flatten.length)]
  · exact hcandperm.map SRow.dropStrata
  · rw [List.length_map, hcl]

/-- Witness for the amended C7 at a concrete one-row input with target
`5`. -/
theorem build_stratified_sample_small_total_witness :
    ∃ out, build_stratified_sample
        [⟨"x y", "", 0, 0, "1999", 0, 7⟩] 5 11 = some out ∧
      out.length = 1 := by
  obtain ⟨out, h1, _, h3⟩ := build_stratified_sample_small_total
    [⟨"x y", "", 0, 0, "1999", 0, 7⟩] 5 11
    [⟨⟨"x y", "", 0, 0, "1999", 0, 7⟩, "y", some 1999, "y_1999"⟩]
    (by decide) (by decide) (by decide)
  exact ⟨out, h1, h3.trans rfl⟩
